import Mathlib

/-!
# poweq: the expression tree, its tokenizer, its parser and its renderer

A shallow embedding of `src/poweq.cpp` (the struct `MathNode`).

Modelling conventions.

* `std::string` is `List Char`; one `Char` stands for one `char` of the string, by its
  byte value.  Plain `char` is signed on the usual targets: a byte of `0x80` or more is a
  negative `char`, outside the domain of `isspace` and `isdigit` and before the first
  entry of `operand_type_map`.  The C++ standard leaves the behaviour on such a byte
  undefined, and so does the model (`Fault.undefined`).
* `number_type` (`double`) is an IEEE 754 binary64 value: a sign with a magnitude for the
  finite values (so `-0.0` differs from `0.0`), the two infinities and NaN.  A number read
  by `strtod` is the exact value of its literal rounded to the nearest binary64 value, ties
  to even, and `inf` when that overflows.
* `std::shared_ptr<MathNode>` is the tree itself (nodes are never mutated).
* A `throw std::runtime_error(msg)` is `Except.error (Fault.runtime_error msg)`; a failed
  `assert` is `Except.error Fault.assert_fail`.
* The `for` loop of `tokenize` may run for ever, so the loop takes a `fuel` argument
  counting loop passes; `none` means that `fuel` passes were not enough.  Storage is
  unbounded in the model (the token vector never runs out of memory).
* `int i` is an unbounded integer (inputs shorter than `2^31` characters).
* What `parse` writes to standard output is not part of the model.
* The C library functions `isspace`, `isdigit`, `strtod` and `std::to_string` are modelled
  after the C standard, in the "C" locale.
-/

namespace MathNode

/-- The C++ type `number_type`, an alias for `double`: an IEEE 754 binary64 value.  A
finite value is its sign and its magnitude (a rational that binary64 holds exactly; zero
has both signs); the others are the infinities and NaN, each with a sign. -/
inductive number_type where
  | finite (negative : Bool) (magnitude : ℚ)
  | infinite (negative : Bool)
  | nan (negative : Bool)
  deriving DecidableEq

/-- The C++ enumeration `MathNode::Type` (`NONE` is its zero value). -/
inductive Type_ where
  | NONE
  | CONSTANT
  | VARIABLE
  | OP_PLUS
  | OP_TIMES
  deriving DecidableEq

/-- What ends a call abnormally: a thrown `std::runtime_error`, a failed `assert`, or
an operation whose behaviour the C++ standard leaves undefined; after `undefined` the
model makes no statement on what the program does. -/
inductive Fault where
  | runtime_error (what : List Char)
  | assert_fail
  | undefined
  deriving DecidableEq

/-- The C++ function `get_operand_count` (source lines 27-38). -/
def get_operand_count (type : Type_) : Except Fault Int :=
  match type with
  | .CONSTANT => .ok 0
  | .VARIABLE => .ok 0
  | .OP_PLUS => .ok 2
  | .OP_TIMES => .ok 2
  | .NONE => .error (.runtime_error "unreachable".toList)

end MathNode

/-- The C++ struct `MathNode`: the tag `_type` with the active member of the union.
`mk_value` is the state left by `MathNode(number_type)`, `mk_name` the one left by
`MathNode(const char *)`, `mk_op` the one left by `MathNode(Type, ptr_type, ptr_type)`. -/
inductive MathNode where
  | mk_value (_value : MathNode.number_type)
  | mk_name (_name : List Char)
  | mk_op (_type : MathNode.Type_) (a b : MathNode)
  deriving DecidableEq

namespace MathNode

/-- The member `_type` of a node. -/
def _type : MathNode → Type_
  | mk_value _ => .CONSTANT
  | mk_name _ => .VARIABLE
  | mk_op t _ _ => t

/-- The constructor `MathNode(Type type, ptr_type a, ptr_type b)` (source line 52): the
node is built, then `assert(get_operand_count(type) == 2)` runs (assertions are enabled). -/
def new_op (type : Type_) (a b : MathNode) : Except Fault MathNode :=
  match get_operand_count type with
  | .error e => .error e
  | .ok n => if n = 2 then .ok (mk_op type a b) else .error .assert_fail

/-- The C++ function `constant` (source lines 61-63). -/
def constant (value : number_type) : Except Fault MathNode :=
  .ok (mk_value value)

/-- The C++ function `variable` (source lines 65-67); `variable` is a reserved word here. -/
def variable_ (_name : List Char) : Except Fault MathNode :=
  .error (.runtime_error "unimplemented".toList)

/-- The C++ function `eq` (source lines 69-71). -/
def eq (_a _b : MathNode) : Except Fault MathNode :=
  .error (.runtime_error "unimplemented".toList)

/-! ## C library -/

/-- The C function `isspace` in the "C" locale: space, `\t`, `\n`, `\v`, `\f`, `\r`. -/
def isspace (c : Char) : Bool :=
  c.toNat = 32 || (9 ≤ c.toNat && c.toNat ≤ 13)

/-- The C function `isdigit`. -/
def isdigit (c : Char) : Bool :=
  48 ≤ c.toNat && c.toNat ≤ 57

/-- The C function `isxdigit`. -/
def isxdigit (c : Char) : Bool :=
  isdigit c || (65 ≤ c.toNat && c.toNat ≤ 70) || (97 ≤ c.toNat && c.toNat ≤ 102)

/-- Value of one (hexadecimal) digit character. -/
def digit_value (c : Char) : Nat :=
  if isdigit c then c.toNat - 48
  else if 97 ≤ c.toNat then c.toNat - 87
  else c.toNat - 55

/-- Value of a run of digit characters in the given base, most significant first. -/
def digits_value (base : Nat) (ds : List Char) : Nat :=
  ds.foldl (fun acc c => base * acc + digit_value c) 0

/-- Rounding to the nearest integer, ties to even, of a rational that is not negative. -/
def round_half_even (q : ℚ) : Nat :=
  let fl := (Rat.floor q).toNat
  if q - fl < 1 / 2 then fl
  else if 1 / 2 < q - fl then fl + 1
  else if fl % 2 = 0 then fl else fl + 1

/-- The number of binary digits of `n`, computed with at most `fuel` halvings. -/
def bit_length : Nat → Nat → Nat
  | 0, _ => 0
  | fuel + 1, n => if n = 0 then 0 else bit_length fuel (n / 2) + 1

/-- The integer `k` with `2 ^ k ≤ q < 2 ^ (k + 1)`, for a positive rational `q`. -/
def floor_log2 (q : ℚ) : Int :=
  if (2 : ℚ) ^ ((bit_length q.num.natAbs q.num.natAbs : Int) - (bit_length q.den q.den : Int)) ≤ q
  then (bit_length q.num.natAbs q.num.natAbs : Int) - (bit_length q.den q.den : Int)
  else (bit_length q.num.natAbs q.num.natAbs : Int) - (bit_length q.den q.den : Int) - 1

/-- The magnitude of the binary64 value nearest to the rational `q ≥ 0`, ties to even: `q`
is rounded to a multiple of `2 ^ e`, where `e` leaves 53 significant bits and is at least
`-1074` (the subnormal range); `none` when the result is `2 ^ 1024` or more (overflow). -/
def binary64_magnitude (q : ℚ) : Option ℚ :=
  if q = 0 then some 0
  else if (round_half_even (q / (2 : ℚ) ^ (max (floor_log2 q - 52) (-1074))) : ℚ) *
      (2 : ℚ) ^ (max (floor_log2 q - 52) (-1074)) < (2 : ℚ) ^ (1024 : Int) then
    some ((round_half_even (q / (2 : ℚ) ^ (max (floor_log2 q - 52) (-1074))) : ℚ) *
      (2 : ℚ) ^ (max (floor_log2 q - 52) (-1074)))
  else none

/-- The binary64 value a rational is converted to: round to nearest, ties to even;
infinity on overflow; the sign is kept, also when the magnitude rounds to zero. -/
def binary64 (q : ℚ) : number_type :=
  match binary64_magnitude |q| with
  | some v => .finite (decide (q < 0)) v
  | none => .infinite (decide (q < 0))

/-- An integer literal used as a `number_type` is converted to `double` (as the `0` of
`make_ptr(0)` is). -/
instance (n : Nat) : OfNat number_type n := ⟨binary64 n⟩

/-- The mantissa of a `strtod` subject sequence: a run of digits that may hold one radix
character, with at least one digit.  Returns the value and the number of characters, or
`none` when there is no digit. -/
def scan_mantissa (base : Nat) (is_digit : Char → Bool) (s : List Char) :
    Option (ℚ × Nat) :=
  let ip := s.takeWhile is_digit
  match s.dropWhile is_digit with
  | c :: r =>
    if c = '.' then
      let fp := r.takeWhile is_digit
      if ip = [] ∧ fp = [] then none
      else some ((digits_value base ip : ℚ) + (digits_value base fp : ℚ) / (base : ℚ) ^ fp.length,
        ip.length + 1 + fp.length)
    else if ip = [] then none else some ((digits_value base ip : ℚ), ip.length)
  | [] => if ip = [] then none else some ((digits_value base ip : ℚ), ip.length)

/-- The optional exponent part of a `strtod` subject sequence: the marker (`e`/`E` or
`p`/`P`), an optional sign and at least one decimal digit.  Returns the exponent and the
number of characters, `(0, 0)` when there is no well-formed exponent part. -/
def scan_exponent (lower upper : Char) (s : List Char) : Int × Nat :=
  match s with
  | c :: r =>
    if c = lower ∨ c = upper then
      match r with
      | d :: r2 =>
        if d = '-' then
          (if r2.takeWhile isdigit = [] then (0, 0)
           else (-(digits_value 10 (r2.takeWhile isdigit) : Int), 2 + (r2.takeWhile isdigit).length))
        else if d = '+' then
          (if r2.takeWhile isdigit = [] then (0, 0)
           else ((digits_value 10 (r2.takeWhile isdigit) : Int), 2 + (r2.takeWhile isdigit).length))
        else
          (if r.takeWhile isdigit = [] then (0, 0)
           else ((digits_value 10 (r.takeWhile isdigit) : Int), 1 + (r.takeWhile isdigit).length))
      | [] => (0, 0)
    else (0, 0)
  | [] => (0, 0)

/-- The hexadecimal form of a `strtod` subject sequence: `0x` or `0X`, a hexadecimal
mantissa and an optional binary exponent. -/
def scan_hex (s : List Char) : Option (number_type × Nat) :=
  match s with
  | z :: x :: r =>
    if z = '0' ∧ (x = 'x' ∨ x = 'X') then
      match scan_mantissa 16 isxdigit r with
      | some (m, n) =>
        some (binary64 (m * (2 : ℚ) ^ (scan_exponent 'p' 'P' (r.drop n)).1),
          2 + n + (scan_exponent 'p' 'P' (r.drop n)).2)
      | none => none
    else none
  | _ => none

/-- The C function `strtod` on a text that starts with a digit or with `.` (the only
texts `tokenize` passes; white space, signs, `inf` and `nan` cannot start them).  Returns
the value read, which is the exact value of the subject sequence converted to binary64,
and the number of characters consumed (`end - nptr`); when no conversion can be made the
value is `0` and nothing is consumed. -/
def strtod (s : List Char) : number_type × Nat :=
  match scan_hex s with
  | some r => r
  | none =>
    match scan_mantissa 10 isdigit s with
    | some (m, n) =>
      (binary64 (m * (10 : ℚ) ^ (scan_exponent 'e' 'E' (s.drop n)).1),
        n + (scan_exponent 'e' 'E' (s.drop n)).2)
    | none => (0, 0)

/-- The C++ function `std::to_string(double)`: the text `printf` writes for `%f`, that is
an optional `-`, then for a finite value the integer digits, `.` and six fractional digits
(the exact value rounded, ties to even), and `inf` or `nan` for the others. -/
def std_to_string : number_type → List Char
  | .finite negative q =>
    (if negative then ['-'] else []) ++
      Nat.toDigits 10 (round_half_even (q * 1000000) / 1000000) ++ ['.'] ++
      List.replicate (6 - (Nat.toDigits 10 (round_half_even (q * 1000000) % 1000000)).length) '0'
      ++ Nat.toDigits 10 (round_half_even (q * 1000000) % 1000000)
  | .infinite negative => (if negative then ['-'] else []) ++ "inf".toList
  | .nan negative => (if negative then ['-'] else []) ++ "nan".toList

/-! ## Rendering -/

/-- The C++ method `to_string` (source lines 75-84).  The operands of `+` are rendered
left to right.  A node whose tag is `CONSTANT` or `VARIABLE` while it holds two operands
makes the C++ code read an inactive member of the union; the model leaves that undefined:
`none`. -/
def to_string : MathNode → Option (Except Fault (List Char))
  | mk_value v => some (.ok (std_to_string v))
  | mk_name n => some (.ok n)
  | mk_op .OP_PLUS a b =>
    match to_string a with
    | some (.ok sa) =>
      match to_string b with
      | some (.ok sb) => some (.ok (sa ++ "+".toList ++ sb))
      | r => r
    | r => r
  | mk_op .OP_TIMES a b =>
    match to_string a with
    | some (.ok sa) =>
      match to_string b with
      | some (.ok sb) => some (.ok (sa ++ "*".toList ++ sb))
      | r => r
    | r => r
  | mk_op .NONE _ _ => some (.error (.runtime_error "unreachable".toList))
  | mk_op .CONSTANT _ _ => none
  | mk_op .VARIABLE _ _ => none

/-! ## Tokens -/

/-- The C++ array `operand_type_map` (source lines 159-164): 256 zero-initialised entries,
then the entries of `'+'` and `'*'` are set. -/
def operand_type_map : List Type_ :=
  ((List.replicate 256 Type_.NONE).set '+'.toNat Type_.OP_PLUS).set '*'.toNat Type_.OP_TIMES

/-- The C++ struct `Token`: `NUMBER` is what `Token(number_type)` builds, `OPERAND` what
`Token(MathNode::Type)` builds. -/
inductive Token where
  | NUMBER (value : number_type)
  | OPERAND (operand : Type_)
  deriving DecidableEq

/-- The C++ function `Token::operand_to_char` (source lines 103-110). -/
def Token.operand_to_char (type : Type_) : Except Fault Char :=
  match type with
  | .OP_PLUS => .ok '+'
  | .OP_TIMES => .ok '*'
  | _ => .error (.runtime_error "unreachable".toList)

/-! ## Tokenizer -/

/-- How one pass of the `for` statement of `tokenize` ends. -/
inductive Pass where
  | next (i : Nat) (tokens : List Token)
  | done (tokens : List Token)
  | throw (e : Fault)
  deriving DecidableEq

/-- One pass of the `for` statement of `tokenize` (source lines 117-132) from the scan
position `i`: the test `i < length`, the body, and the `i++` that follows the body (also
after `continue`).  `i += end - &str[i] - 1` is computed in `Int` (it subtracts one when
`strtod` consumed nothing); after the `i++` the position is a natural number again.
`str[i]` is a plain `char`: when it is a byte of `0x80` or more, `isspace(str[i])` and
`isdigit(str[i])` get an argument outside their domain and `operand_type_map[str[i]]`
reads before the table, so the pass ends `undefined`.  For the other bytes the index is
inside the table. -/
def tokenize_pass (str : List Char) (i : Nat) (tokens : List Token) : Pass :=
  if i < str.length then
    if 128 ≤ (str.getD i (Char.ofNat 0)).toNat then .throw .undefined
    else if isspace (str.getD i (Char.ofNat 0)) then
      .next (i + 1 + 1) tokens
    else if isdigit (str.getD i (Char.ofNat 0)) || str.getD i (Char.ofNat 0) = '.' then
      .next (((i : Int) + (((strtod (str.drop i)).2 : Int) - 1) + 1).toNat)
        (tokens ++ [Token.NUMBER (strtod (str.drop i)).1])
    else if operand_type_map.getD (str.getD i (Char.ofNat 0)).toNat Type_.NONE ≠ Type_.NONE then
      .next (i + 1)
        (tokens ++ [Token.OPERAND (operand_type_map.getD (str.getD i (Char.ofNat 0)).toNat Type_.NONE)])
    else .throw (.runtime_error ("invalid input: ".toList ++ str))
  else .done tokens

/-- The `for` loop of `tokenize` run for at most `fuel` passes from the state `(i, tokens)`;
`none` when the loop is still running after `fuel` passes. -/
def tokenize_loop : Nat → List Char → Nat → List Token → Option (Except Fault (List Token))
  | 0, _, _, _ => none
  | fuel + 1, str, i, tokens =>
    match tokenize_pass str i tokens with
    | .next j tokens2 => tokenize_loop fuel str j tokens2
    | .done tokens2 => some (.ok tokens2)
    | .throw e => some (.error e)

/-- The C++ function `tokenize` (source lines 113-135), its loop bounded by `fuel`. -/
def tokenize (fuel : Nat) (str : List Char) : Option (Except Fault (List Token)) :=
  tokenize_loop fuel str 0 []

/-! ## Parser -/

/-- The `for` loop of `parse` over the tokens (source lines 140-152): each token is
printed; printing an `OPERAND` token calls `Token::operand_to_char`, which may throw. -/
def parse_print : List Token → Except Fault Unit
  | [] => .ok ()
  | .NUMBER _ :: ts => parse_print ts
  | .OPERAND t :: ts =>
    match Token.operand_to_char t with
    | .ok _ => parse_print ts
    | .error e => .error e

/-- The C++ function `parse` (source lines 137-155), the tokenizer bounded by `fuel`. -/
def parse (fuel : Nat) (str : List Char) : Option (Except Fault MathNode) :=
  match tokenize fuel str with
  | some (.ok tokens) =>
    match parse_print tokens with
    | .ok _ => some (.ok (mk_value 0))
    | .error e => some (.error e)
  | some (.error e) => some (.error e)
  | none => none

/-! ## Notions of the specification -/

/-- The characters the specification lets `tokenize` accept: white space, decimal digits,
`.`, `+` and `*`. -/
def recognized (c : Char) : Bool :=
  isspace c || isdigit c || c = '.' || c = '+' || c = '*'

/-- Every `OPERAND` token carries `OP_PLUS` or `OP_TIMES`. -/
def operands_known (tokens : List Token) : Prop :=
  ∀ t, Token.OPERAND t ∈ tokens → t = Type_.OP_PLUS ∨ t = Type_.OP_TIMES

/-- The nodes the constructors of `MathNode` build: a constant leaf by
`MathNode(number_type)`, a variable leaf by `MathNode(const char *)`, and what
`MathNode(Type, ptr_type, ptr_type)` returns over two nodes built before. -/
inductive Built : MathNode → Prop where
  | of_value (v : number_type) : Built (mk_value v)
  | of_name (n : List Char) : Built (mk_name n)
  | of_new_op (type : Type_) (a b node : MathNode) :
      Built a → Built b → new_op type a b = .ok node → Built node

/-- The number of operands a node holds in its member `_op`. -/
def stored_operands : MathNode → Int
  | mk_value _ => 0
  | mk_name _ => 0
  | mk_op _ _ _ => 2

end MathNode

deriving instance DecidableEq for Except

/-! # Theorems -/

namespace MathNode

theorem operand_type_map_getD (n : Nat) :
    operand_type_map.getD n Type_.NONE =
      if n = 42 then Type_.OP_TIMES else if n = 43 then Type_.OP_PLUS else Type_.NONE := by
  unfold operand_type_map
  have h1 : '+'.toNat = 43 := by decide
  have h2 : '*'.toNat = 42 := by decide
  rw [h1, h2]
  simp only [List.getD_eq_getElem?_getD, List.getElem?_set, List.length_set, List.length_replicate,
    List.getElem?_replicate]
  by_cases h42 : n = 42
  · subst h42; simp
  · by_cases h43 : n = 43
    · subst h43; simp
    · have e1 : ¬ (42 = n) := fun h => h42 h.symm
      have e2 : ¬ (43 = n) := fun h => h43 h.symm
      simp only [e1, e2, h42, h43, if_false]
      split <;> simp

theorem takeWhile_append_stop (p : Char → Bool) (ds rest : List Char)
    (hds : ∀ c ∈ ds, p c = true) (hrest : ∀ c ∈ rest.head?, p c = false) :
    (ds ++ rest).takeWhile p = ds := by
  induction ds with
  | nil =>
    cases rest with
    | nil => rfl
    | cons c r =>
      have := hrest c (by simp)
      simp [List.takeWhile, this]
  | cons d ds ih =>
    have hd := hds d (by simp)
    simp only [List.cons_append, List.takeWhile_cons, hd, if_true]
    rw [ih (fun c hc => hds c (by simp [hc]))]

theorem char_eq_of_toNat (c d : Char) (h : c.toNat = d.toNat) : c = d := by
  apply Char.ext
  apply UInt32.ext
  simpa [Char.toNat, UInt32.toNat] using h

theorem getD_append_cons (pre : List Char) (c : Char) (t : List Char) (d : Char) :
    (pre ++ c :: t).getD pre.length d = c := by
  induction pre with
  | nil => rfl
  | cons a pre ih => simpa using ih

theorem digit_or_dot_low (c : Char) (hc : isdigit c = true ∨ c = '.') : ¬ 128 ≤ c.toNat := by
  cases hc with
  | inl h =>
    simp only [isdigit, Bool.and_eq_true, decide_eq_true_eq] at h
    omega
  | inr h => subst h; decide

theorem isspace_of_digit_or_dot (c : Char) (hc : isdigit c = true ∨ c = '.') :
    isspace c = false := by
  cases hc with
  | inl h =>
    simp only [isdigit, Bool.and_eq_true, decide_eq_true_eq] at h
    simp only [isspace, Bool.or_eq_false_iff, Bool.and_eq_false_iff, decide_eq_false_iff_not]
    omega
  | inr h => subst h; decide

theorem tokenize_pass_number (pre : List Char) (c : Char) (t : List Char) (tokens : List Token)
    (hc : isdigit c = true ∨ c = '.') :
    tokenize_pass (pre ++ c :: t) pre.length tokens =
      .next (pre.length + (strtod (c :: t)).2) (tokens ++ [Token.NUMBER (strtod (c :: t)).1]) := by
  unfold tokenize_pass
  rw [if_pos (by simp), getD_append_cons, if_neg (digit_or_dot_low c hc),
    isspace_of_digit_or_dot c hc]
  have h2 : (isdigit c || decide (c = '.')) = true := by
    cases hc with
    | inl h => simp [h]
    | inr h => simp [h]
  simp only [Bool.false_eq_true, if_false, h2, if_true, List.drop_left]
  congr 1
  omega

theorem tokenize_pass_invalid (pre : List Char) (c : Char) (t : List Char)
    (tokens : List Token) (hlow : c.toNat < 128) (hs : isspace c = false)
    (hd : isdigit c = false) (hdot : c ≠ '.') (hplus : c ≠ '+') (htimes : c ≠ '*') :
    tokenize_pass (pre ++ c :: t) pre.length tokens =
      .throw (.runtime_error ("invalid input: ".toList ++ (pre ++ c :: t))) := by
  unfold tokenize_pass
  rw [if_pos (by simp), getD_append_cons, if_neg (by omega), operand_type_map_getD]
  have h42 : c.toNat ≠ 42 := fun h => htimes (char_eq_of_toNat c '*' (by rw [h]; decide))
  have h43 : c.toNat ≠ 43 := fun h => hplus (char_eq_of_toNat c '+' (by rw [h]; decide))
  simp [hs, hd, hdot, h42, h43]


theorem tokenize_loop_succ (fuel : Nat) (str : List Char) (i : Nat) (tokens : List Token) :
    tokenize_loop (fuel + 1) str i tokens =
      match tokenize_pass str i tokens with
      | .next j tokens2 => tokenize_loop fuel str j tokens2
      | .done tokens2 => some (.ok tokens2)
      | .throw e => some (.error e) := rfl

/-- More fuel does not change a result the loop has reached. -/
theorem tokenize_loop_mono (fuel : Nat) :
    ∀ (str : List Char) (i : Nat) (tokens : List Token) (r : Except Fault (List Token)),
      tokenize_loop fuel str i tokens = some r →
        ∀ k, tokenize_loop (fuel + k) str i tokens = some r := by
  induction fuel with
  | zero =>
    intro str i tokens r h
    simp [tokenize_loop] at h
  | succ n ih =>
    intro str i tokens r h k
    have e : n + 1 + k = (n + k) + 1 := by omega
    rw [e, tokenize_loop_succ]
    rw [tokenize_loop_succ] at h
    cases hp : tokenize_pass str i tokens with
    | next j t2 =>
      rw [hp] at h
      exact ih str j t2 r h k
    | done t2 =>
      rw [hp] at h
      exact h
    | throw e2 =>
      rw [hp] at h
      exact h

/-- The result of `tokenize`, when it returns one, does not depend on the fuel. -/
theorem tokenize_unique (f1 f2 : Nat) (str : List Char) (r1 r2 : Except Fault (List Token))
    (h1 : tokenize f1 str = some r1) (h2 : tokenize f2 str = some r2) : r1 = r2 := by
  have a := tokenize_loop_mono f1 str 0 [] r1 h1 f2
  have b := tokenize_loop_mono f2 str 0 [] r2 h2 f1
  rw [Nat.add_comm] at b
  rw [a] at b
  exact Option.some.inj b


/-! ## The parser in terms of the tokenizer -/

theorem tokenize_pass_tokens (str : List Char) (i : Nat) (tokens : List Token) :
    (∀ j tokens2, tokenize_pass str i tokens = .next j tokens2 →
      tokens2 = tokens ∨ (∃ v, tokens2 = tokens ++ [Token.NUMBER v]) ∨
        tokens2 = tokens ++ [Token.OPERAND Type_.OP_PLUS] ∨
        tokens2 = tokens ++ [Token.OPERAND Type_.OP_TIMES]) ∧
      (∀ tokens2, tokenize_pass str i tokens = .done tokens2 → tokens2 = tokens) := by
  unfold tokenize_pass
  rw [operand_type_map_getD]
  by_cases h1 : i < str.length
  · rw [if_pos h1]
    by_cases h0 : 128 ≤ (str.getD i (Char.ofNat 0)).toNat
    · rw [if_pos h0]
      refine ⟨fun j t2 hp => ?_, fun t2 hp => ?_⟩
      · cases hp
      · cases hp
    · rw [if_neg h0]
      by_cases h2 : isspace (str.getD i (Char.ofNat 0)) = true
      · rw [if_pos h2]
        refine ⟨fun j t2 hp => ?_, fun t2 hp => ?_⟩
        · cases hp; exact Or.inl rfl
        · cases hp
      · rw [if_neg h2]
        by_cases h3 : (isdigit (str.getD i (Char.ofNat 0)) ||
            decide (str.getD i (Char.ofNat 0) = '.')) = true
        · rw [if_pos h3]
          refine ⟨fun j t2 hp => ?_, fun t2 hp => ?_⟩
          · cases hp; exact Or.inr (Or.inl ⟨_, rfl⟩)
          · cases hp
        · rw [if_neg h3]
          by_cases h42 : (str.getD i (Char.ofNat 0)).toNat = 42
          · rw [if_pos h42, if_pos (by decide)]
            refine ⟨fun j t2 hp => ?_, fun t2 hp => ?_⟩
            · cases hp; exact Or.inr (Or.inr (Or.inr rfl))
            · cases hp
          · rw [if_neg h42]
            by_cases h43 : (str.getD i (Char.ofNat 0)).toNat = 43
            · rw [if_pos h43, if_pos (by decide)]
              refine ⟨fun j t2 hp => ?_, fun t2 hp => ?_⟩
              · cases hp; exact Or.inr (Or.inr (Or.inl rfl))
              · cases hp
            · rw [if_neg h43, if_neg (by decide)]
              refine ⟨fun j t2 hp => ?_, fun t2 hp => ?_⟩
              · cases hp
              · cases hp
  · rw [if_neg h1]
    refine ⟨fun j t2 hp => ?_, fun t2 hp => ?_⟩
    · cases hp
    · cases hp; rfl

theorem tokenize_pass_operands_known (str : List Char) (i j : Nat) (tokens tokens2 : List Token)
    (h : operands_known tokens) :
    (tokenize_pass str i tokens = .next j tokens2 → operands_known tokens2) ∧
      (tokenize_pass str i tokens = .done tokens2 → operands_known tokens2) := by
  obtain ⟨hn, hd⟩ := tokenize_pass_tokens str i tokens
  constructor
  · intro hp
    rcases hn j tokens2 hp with e | ⟨v, e⟩ | e | e
    · rw [e]; exact h
    · rw [e]
      intro t ht
      simp at ht
      exact h t ht
    · rw [e]
      intro t ht
      simp only [List.mem_append, List.mem_singleton, Token.OPERAND.injEq] at ht
      cases ht with
      | inl ht => exact h t ht
      | inr ht => exact Or.inl ht
    · rw [e]
      intro t ht
      simp only [List.mem_append, List.mem_singleton, Token.OPERAND.injEq] at ht
      cases ht with
      | inl ht => exact h t ht
      | inr ht => exact Or.inr ht
  · intro hp
    rw [hd tokens2 hp]
    exact h

theorem tokenize_loop_operands_known (fuel : Nat) :
    ∀ (str : List Char) (i : Nat) (tokens out : List Token),
      operands_known tokens → tokenize_loop fuel str i tokens = some (.ok out) →
        operands_known out := by
  induction fuel with
  | zero =>
    intro str i tokens out _ h
    simp [tokenize_loop] at h
  | succ n ih =>
    intro str i tokens out hk h
    rw [tokenize_loop_succ] at h
    cases hp : tokenize_pass str i tokens with
    | next j t2 =>
      rw [hp] at h
      exact ih str j t2 out ((tokenize_pass_operands_known str i j tokens t2 hk).1 hp) h
    | done t2 =>
      rw [hp] at h
      cases h
      exact (tokenize_pass_operands_known str i 0 tokens out hk).2 hp
    | throw e2 =>
      rw [hp] at h
      cases h

theorem parse_print_ok (tokens : List Token) (h : operands_known tokens) :
    parse_print tokens = .ok () := by
  induction tokens with
  | nil => rfl
  | cons t ts ih =>
    have hts : operands_known ts := fun u hu => h u (by simp [hu])
    cases t with
    | NUMBER v => simpa [parse_print] using ih hts
    | OPERAND u =>
      cases h u (by simp) with
      | inl hu => subst hu; simpa [parse_print, Token.operand_to_char] using ih hts
      | inr hu => subst hu; simpa [parse_print, Token.operand_to_char] using ih hts

/-- When `tokenize` returns tokens, `parse` returns the constant leaf `0`. -/
theorem parse_of_tokenize_ok (fuel : Nat) (str : List Char) (tokens : List Token)
    (h : tokenize fuel str = some (.ok tokens)) : parse fuel str = some (.ok (mk_value 0)) := by
  have hk : operands_known tokens :=
    tokenize_loop_operands_known fuel str 0 [] tokens (fun t ht => by simp at ht) h
  unfold parse
  rw [h]
  simp only
  rw [parse_print_ok tokens hk]

/-- When `tokenize` throws, `parse` throws the same. -/
theorem parse_of_tokenize_error (fuel : Nat) (str : List Char) (e : Fault)
    (h : tokenize fuel str = some (.error e)) : parse fuel str = some (.error e) := by
  unfold parse
  rw [h]

/-- When `tokenize` is still running, so is `parse`. -/
theorem parse_of_tokenize_none (fuel : Nat) (str : List Char)
    (h : tokenize fuel str = none) : parse fuel str = none := by
  unfold parse
  rw [h]


/-! ## Steps of the loop -/

/-- More fuel does not change a result `parse` has reached. -/
theorem parse_mono (fuel : Nat) (str : List Char) (r : Except Fault MathNode)
    (h : parse fuel str = some r) (k : Nat) : parse (fuel + k) str = some r := by
  unfold parse at h ⊢
  cases ht : tokenize fuel str with
  | none => rw [ht] at h; cases h
  | some tr =>
    rw [ht] at h
    have := tokenize_loop_mono fuel str 0 [] tr ht k
    unfold tokenize
    rw [this]
    exact h

/-- A result that differs from the one `parse` reaches is reached with no fuel at all. -/
theorem parse_never (f0 : Nat) (str : List Char) (r0 r : Except Fault MathNode)
    (h0 : parse f0 str = some r0) (hne : r ≠ r0) (fuel : Nat) : parse fuel str ≠ some r := by
  intro h
  have a := parse_mono f0 str r0 h0 fuel
  have b := parse_mono fuel str r h f0
  rw [Nat.add_comm] at b
  rw [a] at b
  exact hne (Option.some.inj b).symm

/-- A result that differs from the one `tokenize` reaches is reached with no fuel at all. -/
theorem tokenize_never (f0 : Nat) (str : List Char) (r0 r : Except Fault (List Token))
    (h0 : tokenize f0 str = some r0) (hne : r ≠ r0) (fuel : Nat) :
    tokenize fuel str ≠ some r := by
  intro h
  exact hne (tokenize_unique fuel f0 str r r0 h h0)

/-! ## The claims -/

/-- What a pass throws: it is undefined only at a byte of `0x80` or more, and otherwise it
is the invalid-input error, which carries the whole text. -/
theorem tokenize_pass_throw (str : List Char) (i : Nat) (tokens : List Token) (e : Fault)
    (h : tokenize_pass str i tokens = .throw e) :
    (e = .undefined ∧ i < str.length ∧ 128 ≤ (str.getD i (Char.ofNat 0)).toNat) ∨
      e = .runtime_error ("invalid input: ".toList ++ str) := by
  unfold tokenize_pass at h
  by_cases h1 : i < str.length
  · rw [if_pos h1] at h
    by_cases h0 : 128 ≤ (str.getD i (Char.ofNat 0)).toNat
    · rw [if_pos h0] at h
      cases h
      exact Or.inl ⟨rfl, h1, h0⟩
    · rw [if_neg h0] at h
      by_cases h2 : isspace (str.getD i (Char.ofNat 0)) = true
      · rw [if_pos h2] at h; cases h
      · rw [if_neg h2] at h
        by_cases h3 : (isdigit (str.getD i (Char.ofNat 0)) ||
            decide (str.getD i (Char.ofNat 0) = '.')) = true
        · rw [if_pos h3] at h; cases h
        · rw [if_neg h3] at h
          by_cases h4 : operand_type_map.getD (str.getD i (Char.ofNat 0)).toNat Type_.NONE ≠
              Type_.NONE
          · rw [if_pos h4] at h; cases h
          · rw [if_neg h4] at h
            cases h
            exact Or.inr rfl
  · rw [if_neg h1] at h
    cases h

/-- On a text of bytes below `0x80` the loop meets no undefined behaviour: the only error
it ends with is the invalid-input error, which carries the whole text. -/
theorem tokenize_loop_error_of_low (fuel : Nat) :
    ∀ (str : List Char) (i : Nat) (tokens : List Token) (e : Fault),
      (∀ c ∈ str, c.toNat < 128) → tokenize_loop fuel str i tokens = some (.error e) →
        e = .runtime_error ("invalid input: ".toList ++ str) := by
  induction fuel with
  | zero =>
    intro str i tokens e _ h
    simp [tokenize_loop] at h
  | succ n ih =>
    intro str i tokens e hlow h
    rw [tokenize_loop_succ] at h
    cases hp : tokenize_pass str i tokens with
    | next j t2 =>
      rw [hp] at h
      exact ih str j t2 e hlow h
    | done t2 =>
      rw [hp] at h
      cases h
    | throw e2 =>
      rw [hp] at h
      cases h
      rcases tokenize_pass_throw str i tokens e hp with ⟨_, hi, hc⟩ | he
      · have hmem : str.getD i (Char.ofNat 0) ∈ str := by
          rw [List.getD_eq_getElem?_getD, List.getElem?_eq_getElem hi, Option.getD_some]
          exact List.getElem_mem hi
        have := hlow _ hmem
        omega
      · exact he

/-- C3, as the code has it: `parse` does not check the token sequence.  For every text of
bytes below `0x80`: whenever `tokenize` returns tokens (none at all, an operator at the
end, or any other order), `parse` returns the constant leaf `0`; `parse` throws only what
`tokenize` throws, and that is only the invalid-input error. -/
theorem parse_accepts_every_token_sequence (fuel : Nat) (str : List Char)
    (hlow : ∀ c ∈ str, c.toNat < 128) :
    (∀ tokens, tokenize fuel str = some (.ok tokens) →
      parse fuel str = some (.ok (mk_value 0))) ∧
    (∀ e, parse fuel str = some (.error e) → tokenize fuel str = some (.error e)) ∧
    (∀ e, tokenize fuel str = some (.error e) →
      e = .runtime_error ("invalid input: ".toList ++ str)) := by
  refine ⟨fun tokens h => parse_of_tokenize_ok fuel str tokens h, fun e h => ?_,
    fun e h => tokenize_loop_error_of_low fuel str 0 [] e hlow h⟩
  cases ht : tokenize fuel str with
  | none => rw [parse_of_tokenize_none fuel str ht] at h; cases h
  | some tr =>
    cases tr with
    | error e2 =>
      rw [parse_of_tokenize_error fuel str e2 ht] at h
      cases h
      rfl
    | ok tokens =>
      rw [parse_of_tokenize_ok fuel str tokens ht] at h
      cases h

/-- C3, witness: the text `1+`, whose tokens end with an operator. -/
theorem parse_accepts_every_token_sequence_witness :
    (∀ c ∈ "1+".toList, c.toNat < 128) ∧
    tokenize 3 "1+".toList = some (.ok [Token.NUMBER 1, Token.OPERAND .OP_PLUS]) ∧
      parse 3 "1+".toList = some (.ok (mk_value 0)) :=
  ⟨by decide, by decide!,
    (parse_accepts_every_token_sequence 3 "1+".toList (by decide)).1
      [Token.NUMBER 1, Token.OPERAND .OP_PLUS] (by decide!)⟩

/-- C3, counterexample: the empty text has no token, and `parse` returns the constant leaf
`0` for it; with no amount of fuel does it throw. -/
theorem parse_empty_counterexample :
    tokenize 1 "".toList = some (.ok []) ∧ parse 1 "".toList = some (.ok (mk_value 0)) ∧
      ∀ fuel e, parse fuel "".toList ≠ some (.error e) :=
  ⟨by decide!, by decide!,
    fun fuel e => parse_never 1 _ (.ok (mk_value 0)) _ (by decide!) (fun h => by cases h) fuel⟩

/-- The conversion to binary64 at values binary64 cannot hold: `1/10` and `1/5` are
rounded, `2^53 + 1` is a tie and goes to the even neighbour `2^53`, `10^400` overflows to
infinity, `10^-400` underflows to zero; `7/2` and the small integers are exact. -/
theorem binary64_values :
    binary64 (1 / 10) = .finite false (3602879701896397 / 36028797018963968) ∧
    binary64 (1 / 5) = .finite false (3602879701896397 / 18014398509481984) ∧
    binary64 9007199254740993 = .finite false 9007199254740992 ∧
    binary64 ((10 : ℚ) ^ 400) = .infinite false ∧
    binary64 (1 / (10 : ℚ) ^ 400) = .finite false 0 ∧
    binary64 (7 / 2) = .finite false (7 / 2) ∧
    (0 : number_type) = .finite false 0 ∧ (1 : number_type) = .finite false 1 ∧
    (2 : number_type) = .finite false 2 ∧ (3 : number_type) = .finite false 3 := by
  decide!

/-- A literal too large for binary64 gives the token `NUMBER inf`: the text is `1`
followed by 400 zeros. -/
theorem tokenize_overflow_value :
    tokenize 2 ('1' :: List.replicate 400 '0') = some (.ok [Token.NUMBER (.infinite false)]) := by
  decide!


/-- C5, the code at the failing input `1 +2`: the texts `1` and `+2` give the tokens
`[NUMBER 1]` and `[OPERAND +, NUMBER 2]`, yet `1 +2` gives `[NUMBER 1, NUMBER 2]`: the
character after the blank is skipped with it.  With no amount of fuel does `1 +2` give the
tokens of `1+2`. -/
theorem tokenize_blank_drops_next_character :
    tokenize 2 "1".toList = some (.ok [Token.NUMBER 1]) ∧
    tokenize 3 "+2".toList = some (.ok [Token.OPERAND .OP_PLUS, Token.NUMBER 2]) ∧
    tokenize 4 "1+2".toList =
      some (.ok [Token.NUMBER 1, Token.OPERAND .OP_PLUS, Token.NUMBER 2]) ∧
    tokenize 4 "1 +2".toList = some (.ok [Token.NUMBER 1, Token.NUMBER 2]) ∧
    ∀ fuel, tokenize fuel "1 +2".toList ≠
      some (.ok [Token.NUMBER 1, Token.OPERAND .OP_PLUS, Token.NUMBER 2]) :=
  ⟨by decide!, by decide!, by decide!, by decide!,
    tokenize_never 4 _ (.ok [Token.NUMBER 1, Token.NUMBER 2]) _ (by decide!) (by decide!)⟩

/-- C6, as the code has it: when the scan position stands on a character below `0x80`
(a `char` that is not negative) that is not white space, not a digit, not `.`, not `+` and
not `*`, the loop throws the invalid-input error, which carries the whole input; in
particular `tokenize` throws it for every text that starts with such a character. -/
theorem tokenize_rejects_unrecognized_at_scan (fuel : Nat) (pre : List Char) (c : Char)
    (t : List Char) (tokens : List Token) (hlow : c.toNat < 128)
    (hc : recognized c = false) :
    tokenize_loop (fuel + 1) (pre ++ c :: t) pre.length tokens =
      some (.error (.runtime_error ("invalid input: ".toList ++ (pre ++ c :: t)))) ∧
    tokenize (fuel + 1) (c :: t) =
      some (.error (.runtime_error ("invalid input: ".toList ++ c :: t))) := by
  simp only [recognized, Bool.or_eq_false_iff, decide_eq_false_iff_not] at hc
  obtain ⟨⟨⟨⟨hs, hd⟩, hdot⟩, hplus⟩, htimes⟩ := hc
  constructor
  · rw [tokenize_loop_succ, tokenize_pass_invalid pre c t tokens hlow hs hd hdot hplus htimes]
  · unfold tokenize
    rw [tokenize_loop_succ]
    have := tokenize_pass_invalid [] c t [] hlow hs hd hdot hplus htimes
    simp only [List.nil_append, List.length_nil] at this
    rw [this]

/-- C6, witness: the text `a+1`. -/
theorem tokenize_rejects_unrecognized_at_scan_witness :
    ('a'.toNat < 128 ∧ recognized 'a' = false) ∧
      tokenize 1 "a+1".toList = some (.error (.runtime_error "invalid input: a+1".toList)) :=
  ⟨⟨by decide, by decide⟩,
    (tokenize_rejects_unrecognized_at_scan 0 [] 'a' "+1".toList [] (by decide)
      (by decide)).2⟩

/-- C6, counterexample: the text `1e5` holds the letter `e`, and `tokenize` returns one
`NUMBER` token for it: `strtod` reads the letter as an exponent marker. -/
theorem tokenize_exponent_counterexample :
    ('e' ∈ "1e5".toList ∧ recognized 'e' = false) ∧
      tokenize 2 "1e5".toList = some (.ok [Token.NUMBER 100000]) ∧
      ∀ fuel e, tokenize fuel "1e5".toList ≠ some (.error e) :=
  ⟨⟨by decide, by decide⟩, by decide!,
    fun fuel e => tokenize_never 2 _ (.ok [Token.NUMBER 100000]) _ (by decide!)
      (fun h => by cases h) fuel⟩


/-- On a `.` that no digit follows, `strtod` converts nothing. -/
theorem strtod_lone_dot (t : List Char) (ht : ∀ c ∈ t.head?, isdigit c = false) :
    strtod ('.' :: t) = (0, 0) := by
  have hhex : scan_hex ('.' :: t) = none := by
    cases t with
    | nil => rfl
    | cons a b => simp [scan_hex]
  have htake : t.takeWhile isdigit = [] := by
    have := takeWhile_append_stop isdigit [] t (by simp) ht
    simpa using this
  have hm : scan_mantissa 10 isdigit ('.' :: t) = none := by
    have h1 : isdigit '.' = false := by decide
    simp [scan_mantissa, List.takeWhile_cons, List.dropWhile_cons, h1, htake]
  unfold strtod
  rw [hhex, hm]

/-- The loop never leaves a `.` that no digit follows: each pass appends `NUMBER 0`
and keeps the scan position. -/
theorem tokenize_loop_lone_dot (fuel : Nat) (pre t : List Char)
    (ht : ∀ c ∈ t.head?, isdigit c = false) :
    ∀ tokens, tokenize_loop fuel (pre ++ '.' :: t) pre.length tokens = none := by
  induction fuel with
  | zero => intro tokens; rfl
  | succ n ih =>
    intro tokens
    rw [tokenize_loop_succ, tokenize_pass_number pre '.' t tokens (Or.inr rfl),
      strtod_lone_dot t ht]
    exact ih _

/-- C8, the code at the failing input `.`: whatever the fuel, `tokenize` has neither
returned nor thrown; the invalid-input error is never raised. -/
theorem tokenize_lone_dot_never_ends (fuel : Nat) : tokenize fuel ".".toList = none :=
  tokenize_loop_lone_dot fuel [] [] (by simp) []

/-- C9, the code at the failing input `.`: a loop pass at the `.` appends `NUMBER 0` and
leaves the scan position at `0`, so the loop started there is still running after any
number of passes. -/
theorem tokenize_pass_lone_dot_keeps_position (fuel : Nat) (tokens : List Token) :
    tokenize_pass ".".toList 0 tokens = .next 0 (tokens ++ [Token.NUMBER 0]) ∧
      tokenize_loop fuel ".".toList 0 tokens = none := by
  refine ⟨?_, tokenize_loop_lone_dot fuel [] [] (by simp) tokens⟩
  have := tokenize_pass_number [] '.' [] tokens (Or.inr rfl)
  rw [strtod_lone_dot [] (by simp)] at this
  exact this


/-- C10: for all trees `a` and `b` with renderings `sa` and `sb`, the node the constructor
builds for `OP_PLUS` over `a` and `b` renders as `sa`, `+`, `sb`, and the one for
`OP_TIMES` as `sa`, `*`, `sb`. -/
theorem to_string_binary_concatenates (a b : MathNode) (sa sb : List Char)
    (ha : to_string a = some (.ok sa)) (hb : to_string b = some (.ok sb)) :
    (new_op .OP_PLUS a b = .ok (mk_op .OP_PLUS a b) ∧
      to_string (mk_op .OP_PLUS a b) = some (.ok (sa ++ "+".toList ++ sb))) ∧
    (new_op .OP_TIMES a b = .ok (mk_op .OP_TIMES a b) ∧
      to_string (mk_op .OP_TIMES a b) = some (.ok (sa ++ "*".toList ++ sb))) := by
  refine ⟨⟨rfl, ?_⟩, ⟨rfl, ?_⟩⟩
  · simp only [to_string, ha, hb]
  · simp only [to_string, ha, hb]

/-- C10, witness: the tree `Plus(Constant(1), Constant(2))` renders as the decimal text of
`1`, then `+`, then the decimal text of `2`: `1.000000+2.000000`. -/
theorem to_string_binary_concatenates_witness :
    (to_string (mk_value 1) = some (.ok (std_to_string 1)) ∧
      to_string (mk_value 2) = some (.ok (std_to_string 2))) ∧
    to_string (mk_op .OP_PLUS (mk_value 1) (mk_value 2)) =
      some (.ok (std_to_string 1 ++ "+".toList ++ std_to_string 2)) ∧
    std_to_string 1 ++ "+".toList ++ std_to_string 2 = "1.000000+2.000000".toList :=
  ⟨⟨rfl, rfl⟩,
    (to_string_binary_concatenates (mk_value 1) (mk_value 2) (std_to_string 1) (std_to_string 2)
      rfl rfl).1.2,
    by decide!⟩

/-! ## Constructed trees -/

/-- The asserting constructor returns a node only for `OP_PLUS` and `OP_TIMES`, and then
the node with that tag over the two operands. -/
theorem new_op_ok (type : Type_) (a b node : MathNode) (h : new_op type a b = .ok node) :
    (type = .OP_PLUS ∨ type = .OP_TIMES) ∧ node = mk_op type a b := by
  cases type <;> simp [new_op, get_operand_count] at h
  · exact ⟨Or.inl rfl, h.symm⟩
  · exact ⟨Or.inr rfl, h.symm⟩

/-- C11: for every tree built with the constructors of `MathNode` (constant leaf,
variable leaf, binary node over built trees), `to_string` returns a text; it neither
throws `unreachable` nor reads an inactive member of the union. -/
theorem to_string_total_on_built (t : MathNode) (h : Built t) :
    ∃ s, to_string t = some (.ok s) := by
  induction h with
  | of_value v => exact ⟨_, rfl⟩
  | of_name n => exact ⟨_, rfl⟩
  | of_new_op type a b node _ _ hn iha ihb =>
    obtain ⟨sa, ha⟩ := iha
    obtain ⟨sb, hb⟩ := ihb
    obtain ⟨ht, hnode⟩ := new_op_ok type a b node hn
    subst hnode
    cases ht with
    | inl ht =>
      subst ht
      refine ⟨sa ++ "+".toList ++ sb, ?_⟩
      simp only [to_string, ha, hb]
    | inr ht =>
      subst ht
      refine ⟨sa ++ "*".toList ++ sb, ?_⟩
      simp only [to_string, ha, hb]

/-- C11, witness: the tree `Times(Plus(Constant(1), Variable(x)), Constant(3))` is built by
the constructors and renders as `1.000000+x*3.000000`. -/
theorem to_string_total_on_built_witness :
    Built (mk_op .OP_TIMES (mk_op .OP_PLUS (mk_value 1) (mk_name "x".toList)) (mk_value 3)) ∧
    (∃ s, to_string
      (mk_op .OP_TIMES (mk_op .OP_PLUS (mk_value 1) (mk_name "x".toList)) (mk_value 3)) =
        some (.ok s)) ∧
    to_string (mk_op .OP_TIMES (mk_op .OP_PLUS (mk_value 1) (mk_name "x".toList)) (mk_value 3)) =
      some (.ok "1.000000+x*3.000000".toList) :=
  have hb : Built
      (mk_op .OP_TIMES (mk_op .OP_PLUS (mk_value 1) (mk_name "x".toList)) (mk_value 3)) :=
    Built.of_new_op .OP_TIMES _ _ _
      (Built.of_new_op .OP_PLUS _ _ _ (Built.of_value 1) (Built.of_name _) rfl)
      (Built.of_value 3) rfl
  ⟨hb, to_string_total_on_built _ hb, by decide!⟩

/-- C12: for all trees `a`, `b`, `c` with renderings `sa`, `sb`, `sc`, the trees
`Times(Plus(a, b), c)` and `Plus(a, Times(b, c))` are different and both render as
`sa+sb*sc`, no parenthesis being written; so `to_string` is not injective. -/
theorem to_string_ignores_grouping (a b c : MathNode) (sa sb sc : List Char)
    (ha : to_string a = some (.ok sa)) (hb : to_string b = some (.ok sb))
    (hc : to_string c = some (.ok sc)) :
    to_string (mk_op .OP_TIMES (mk_op .OP_PLUS a b) c) =
      some (.ok (sa ++ "+".toList ++ sb ++ "*".toList ++ sc)) ∧
    to_string (mk_op .OP_PLUS a (mk_op .OP_TIMES b c)) =
      some (.ok (sa ++ "+".toList ++ sb ++ "*".toList ++ sc)) ∧
    mk_op .OP_TIMES (mk_op .OP_PLUS a b) c ≠ mk_op .OP_PLUS a (mk_op .OP_TIMES b c) ∧
    ¬ Function.Injective to_string := by
  have h1 : to_string (mk_op .OP_TIMES (mk_op .OP_PLUS a b) c) =
      some (.ok (sa ++ "+".toList ++ sb ++ "*".toList ++ sc)) := by
    simp only [to_string, ha, hb, hc]
  have h2 : to_string (mk_op .OP_PLUS a (mk_op .OP_TIMES b c)) =
      some (.ok (sa ++ "+".toList ++ sb ++ "*".toList ++ sc)) := by
    simp only [to_string, ha, hb, hc, List.append_assoc]
  have h3 : mk_op .OP_TIMES (mk_op .OP_PLUS a b) c ≠ mk_op .OP_PLUS a (mk_op .OP_TIMES b c) := by
    intro h
    injection h with ht
    cases ht
  refine ⟨h1, h2, h3, fun hinj => h3 (hinj (h1.trans h2.symm))⟩

/-- C12, witness: `Times(Plus(1, 2), 3)` and `Plus(1, Times(2, 3))` both render as
`1.000000+2.000000*3.000000`. -/
theorem to_string_ignores_grouping_witness :
    to_string (mk_op .OP_TIMES (mk_op .OP_PLUS (mk_value 1) (mk_value 2)) (mk_value 3)) =
      some (.ok "1.000000+2.000000*3.000000".toList) ∧
    to_string (mk_op .OP_PLUS (mk_value 1) (mk_op .OP_TIMES (mk_value 2) (mk_value 3))) =
      some (.ok "1.000000+2.000000*3.000000".toList) ∧
    mk_op .OP_TIMES (mk_op .OP_PLUS (mk_value 1) (mk_value 2)) (mk_value 3) ≠
      mk_op .OP_PLUS (mk_value 1) (mk_op .OP_TIMES (mk_value 2) (mk_value 3)) :=
  have h := to_string_ignores_grouping (mk_value 1) (mk_value 2) (mk_value 3)
    "1.000000".toList "2.000000".toList "3.000000".toList
    (by decide!) (by decide!) (by decide!)
  ⟨h.1, h.2.1, h.2.2.1⟩

/-- C13: the tree `T = Times(Plus(Constant(1), Constant(2)), Constant(3))` renders as
`1.000000+2.000000*3.000000`; `parse` applied to that text returns the constant leaf `0`,
which differs from `T`, and with no amount of fuel does it return `T`. -/
theorem parse_to_string_differs :
    to_string (mk_op .OP_TIMES (mk_op .OP_PLUS (mk_value 1) (mk_value 2)) (mk_value 3)) =
      some (.ok "1.000000+2.000000*3.000000".toList) ∧
    parse 6 "1.000000+2.000000*3.000000".toList = some (.ok (mk_value 0)) ∧
    mk_value 0 ≠ mk_op .OP_TIMES (mk_op .OP_PLUS (mk_value 1) (mk_value 2)) (mk_value 3) ∧
    ∀ fuel, parse fuel "1.000000+2.000000*3.000000".toList ≠
      some (.ok (mk_op .OP_TIMES (mk_op .OP_PLUS (mk_value 1) (mk_value 2)) (mk_value 3))) :=
  ⟨by decide!, by decide!, by decide!,
    parse_never 6 _ (.ok (mk_value 0)) _ (by decide!) (by decide!)⟩

/-- C14: `get_operand_count` returns `0` for `CONSTANT` and `VARIABLE`, `2` for `OP_PLUS`
and `OP_TIMES`, and throws `unreachable` for `NONE`; a value it returns is `0` or `2`. -/
theorem get_operand_count_values :
    get_operand_count .CONSTANT = .ok 0 ∧ get_operand_count .VARIABLE = .ok 0 ∧
    get_operand_count .OP_PLUS = .ok 2 ∧ get_operand_count .OP_TIMES = .ok 2 ∧
    get_operand_count .NONE = .error (.runtime_error "unreachable".toList) ∧
    (∀ type, get_operand_count type = .ok 0 ∨ get_operand_count type = .ok 2 ∨
      get_operand_count type = .error (.runtime_error "unreachable".toList)) ∧
    ∀ type n, get_operand_count type = .ok n → n = 0 ∨ n = 2 := by
  refine ⟨rfl, rfl, rfl, rfl, rfl, ?_, ?_⟩
  · intro type
    cases type <;> simp [get_operand_count]
  · intro type n h
    cases type <;> simp [get_operand_count] at h <;> omega

/-- C15: with assertions enabled, the constructor `MathNode(type, a, b)` returns a node
exactly when `get_operand_count(type)` is `2`, that is for `OP_PLUS` and `OP_TIMES`, and
the node then holds that tag over `a` and `b`; for `CONSTANT` and `VARIABLE` the assertion
fails and for `NONE` `unreachable` is thrown.  Every node built by the constructors holds
as many operands as `get_operand_count` gives for its tag. -/
theorem new_op_checks_arity (type : Type_) (a b : MathNode) :
    ((∃ node, new_op type a b = .ok node) ↔ get_operand_count type = .ok 2) ∧
    (get_operand_count type = .ok 2 ↔ (type = .OP_PLUS ∨ type = .OP_TIMES)) ∧
    (∀ node, new_op type a b = .ok node → node = mk_op type a b) ∧
    new_op .OP_PLUS a b = .ok (mk_op .OP_PLUS a b) ∧
    new_op .OP_TIMES a b = .ok (mk_op .OP_TIMES a b) ∧
    new_op .CONSTANT a b = .error .assert_fail ∧
    new_op .VARIABLE a b = .error .assert_fail ∧
    new_op .NONE a b = .error (.runtime_error "unreachable".toList) ∧
    ∀ node, Built node → get_operand_count node._type = .ok (stored_operands node) := by
  refine ⟨?_, ?_, fun node h => (new_op_ok type a b node h).2, rfl, rfl, rfl, rfl, rfl, ?_⟩
  · cases type <;> simp [new_op, get_operand_count]
  · cases type <;> simp [get_operand_count]
  · intro node h
    cases h with
    | of_value v => rfl
    | of_name n => rfl
    | of_new_op t x y node _ _ hn =>
      obtain ⟨ht, hnode⟩ := new_op_ok t x y node hn
      subst hnode
      cases ht with
      | inl ht => subst ht; rfl
      | inr ht => subst ht; rfl

/-- C15, evaluated: `Plus(Constant(1), Constant(2))` is built and holds two operands;
the constructor refuses the tag `CONSTANT` over the same operands. -/
theorem new_op_checks_arity_witness :
    new_op .OP_PLUS (mk_value 1) (mk_value 2) = .ok (mk_op .OP_PLUS (mk_value 1) (mk_value 2)) ∧
    new_op .CONSTANT (mk_value 1) (mk_value 2) = .error .assert_fail ∧
    get_operand_count (mk_op .OP_PLUS (mk_value 1) (mk_value 2))._type =
      .ok (stored_operands (mk_op .OP_PLUS (mk_value 1) (mk_value 2))) :=
  have h := new_op_checks_arity .OP_PLUS (mk_value 1) (mk_value 2)
  ⟨h.2.2.2.1, h.2.2.2.2.2.1,
    h.2.2.2.2.2.2.2.2 _ (Built.of_new_op .OP_PLUS _ _ _ (Built.of_value 1) (Built.of_value 2) rfl)⟩

/-- C16, as the code has it: `variable` throws `unimplemented` for every name, empty or
not, and builds no node; a variable leaf, which only the constructor
`MathNode(const char *)` builds, renders as its name verbatim. -/
theorem variable_always_throws (name : List Char) :
    variable_ name = .error (.runtime_error "unimplemented".toList) ∧
    (∀ node, variable_ name ≠ .ok node) ∧
    to_string (mk_name name) = some (.ok name) :=
  ⟨rfl, fun _ h => Except.noConfusion h, rfl⟩

/-- C16, counterexample: for the non-empty name `x`, `variable` throws `unimplemented`
and returns no leaf. -/
theorem variable_counterexample :
    "x".toList ≠ [] ∧
    variable_ "x".toList = .error (.runtime_error "unimplemented".toList) ∧
    variable_ "x".toList ≠ .ok (mk_name "x".toList) :=
  ⟨by decide, rfl, by decide⟩

/-- C17: the table has 256 entries, and for every byte value `b` below 256 the entry at
`b` is `OP_PLUS` if `b` is `'+'`, `OP_TIMES` if `b` is `'*'`, and `NONE` otherwise. -/
theorem operand_type_map_entries (b : Nat) (hb : b < 256) :
    operand_type_map.length = 256 ∧
    operand_type_map[b]? =
      some (if b = '+'.toNat then Type_.OP_PLUS
        else if b = '*'.toNat then Type_.OP_TIMES else Type_.NONE) := by
  have hlen : operand_type_map.length = 256 := by
    simp only [operand_type_map, List.length_set, List.length_replicate]
  refine ⟨hlen, ?_⟩
  have hlt : b < operand_type_map.length := by omega
  have hg := operand_type_map_getD b
  rw [List.getD_eq_getElem?_getD, List.getElem?_eq_getElem hlt, Option.getD_some] at hg
  rw [List.getElem?_eq_getElem hlt, hg]
  have h1 : '+'.toNat = 43 := by decide
  have h2 : '*'.toNat = 42 := by decide
  rw [h1, h2]
  by_cases h42 : b = 42
  · subst h42; rfl
  · by_cases h43 : b = 43
    · subst h43; rfl
    · simp [h42, h43]

/-- C17, witness: the entries of `'+'`, of `'*'` and of `'a'`. -/
theorem operand_type_map_entries_witness :
    operand_type_map['+'.toNat]? = some Type_.OP_PLUS ∧
    operand_type_map['*'.toNat]? = some Type_.OP_TIMES ∧
    operand_type_map['a'.toNat]? = some Type_.NONE :=
  ⟨(operand_type_map_entries '+'.toNat (by decide)).2,
    (operand_type_map_entries '*'.toNat (by decide)).2,
    (operand_type_map_entries 'a'.toNat (by decide)).2⟩

/-- For every text of bytes below `0x80`, `parse` does not look at what the tokens are:
it returns the constant leaf `0` exactly when `tokenize` returns tokens, throws an error
exactly when `tokenize` throws that error (the invalid-input error), and is still running
exactly when `tokenize` is; it returns nothing else. -/
theorem parse_follows_tokenize (fuel : Nat) (str : List Char)
    (hlow : ∀ c ∈ str, c.toNat < 128) :
    ((∃ tokens, tokenize fuel str = some (.ok tokens)) ↔
      parse fuel str = some (.ok (mk_value 0))) ∧
    (∀ e, parse fuel str = some (.error e) ↔ tokenize fuel str = some (.error e)) ∧
    (parse fuel str = none ↔ tokenize fuel str = none) ∧
    (∀ node, parse fuel str = some (.ok node) → node = mk_value 0) ∧
    (∀ e, tokenize fuel str = some (.error e) →
      e = .runtime_error ("invalid input: ".toList ++ str)) := by
  have herr : ∀ e, tokenize fuel str = some (.error e) →
      e = .runtime_error ("invalid input: ".toList ++ str) :=
    fun e h => tokenize_loop_error_of_low fuel str 0 [] e hlow h
  cases ht : tokenize fuel str with
  | none =>
    rw [parse_of_tokenize_none fuel str ht]
    simp
  | some tr =>
    cases tr with
    | error e2 =>
      have := herr e2 ht
      rw [parse_of_tokenize_error fuel str e2 ht]
      simp [this]
    | ok tokens =>
      rw [parse_of_tokenize_ok fuel str tokens ht]
      simp

/-- On `2*` and on `7` the tokens differ and `parse` returns the same leaf; on `a+1` it
throws what `tokenize` throws. -/
theorem parse_follows_tokenize_evaluated :
    tokenize 3 "2*".toList = some (.ok [Token.NUMBER 2, Token.OPERAND .OP_TIMES]) ∧
    parse 3 "2*".toList = some (.ok (mk_value 0)) ∧
    tokenize 3 "7".toList = some (.ok [Token.NUMBER 7]) ∧
    parse 3 "7".toList = some (.ok (mk_value 0)) ∧
    parse 3 "a+1".toList = some (.error (.runtime_error "invalid input: a+1".toList)) :=
  ⟨by decide!,
    (parse_follows_tokenize 3 "2*".toList (by decide)).1.1
      ⟨[Token.NUMBER 2, Token.OPERAND .OP_TIMES], by decide!⟩,
    by decide!,
    (parse_follows_tokenize 3 "7".toList (by decide)).1.1 ⟨[Token.NUMBER 7], by decide!⟩,
    ((parse_follows_tokenize 3 "a+1".toList (by decide)).2.1 _).2 (by decide!)⟩

/-- For every text of bytes below `0x80`: every `OPERAND` token of a token sequence
`tokenize` returns carries `OP_PLUS` or `OP_TIMES`, and `Token::operand_to_char` returns
`+` or `*` for it; it does not throw `unreachable`. -/
theorem tokenize_operands_are_operators (fuel : Nat) (str : List Char) (tokens : List Token)
    (type : Type_) (_hlow : ∀ c ∈ str, c.toNat < 128)
    (h : tokenize fuel str = some (.ok tokens)) (hmem : Token.OPERAND type ∈ tokens) :
    (type = .OP_PLUS ∨ type = .OP_TIMES) ∧
    (Token.operand_to_char type = .ok '+' ∨ Token.operand_to_char type = .ok '*') := by
  have hk : operands_known tokens :=
    tokenize_loop_operands_known fuel str 0 [] tokens (fun t ht => by simp at ht) h
  cases hk type hmem with
  | inl ht => subst ht; exact ⟨Or.inl rfl, Or.inl rfl⟩
  | inr ht => subst ht; exact ⟨Or.inr rfl, Or.inr rfl⟩

/-- The `*` of the text `1+2*3` is an `OPERAND` token of kind `OP_TIMES`. -/
theorem tokenize_operands_are_operators_evaluated :
    tokenize 6 "1+2*3".toList =
      some (.ok [Token.NUMBER 1, Token.OPERAND .OP_PLUS, Token.NUMBER 2,
        Token.OPERAND .OP_TIMES, Token.NUMBER 3]) ∧
    (Type_.OP_TIMES = Type_.OP_PLUS ∨ Type_.OP_TIMES = Type_.OP_TIMES) ∧
    (Token.operand_to_char .OP_TIMES = .ok '+' ∨ Token.operand_to_char .OP_TIMES = .ok '*') :=
  ⟨by decide!,
    tokenize_operands_are_operators 6 "1+2*3".toList
      [Token.NUMBER 1, Token.OPERAND .OP_PLUS, Token.NUMBER 2, Token.OPERAND .OP_TIMES,
        Token.NUMBER 3] .OP_TIMES (by decide) (by decide!) (by decide!)⟩

end MathNode
